import Mathlib

/-!
Verification of the FINFILES financial-data ingestion and analysis core.

This file gives a shallow embedding, in Lean 4, of the core pipeline of the
FINFILES repository (src/FINFILES.rs): the identifier resolver, the remote
fact fetcher with its retry loop, the fact normalizer, the tabular data
model, and the free-text query analyzer, together with theorems settling the
stated properties of that code.

Modelling conventions:
- Rust f64 values are modelled as exact rationals.  Every numeric fact proved
  below involves only values on which binary64 arithmetic is exact, or (for
  the anomaly boundary case) values at which the binary64 evaluation was
  checked to agree with the exact one.
- Rust HashMap / HashSet collections are modelled as association lists; the
  list order stands for one iteration order.  Every theorem below is either
  insensitive to that order or carries hypotheses making it so.
- Fallible Rust code returning Result is modelled with Except.
- polars DataFrame columns in this pipeline are only ever Utf8 or Float64
  series and contain no null entries, so a column is a list of strings or a
  list of rationals.
-/

/-- ASCII lower-casing of one character.  Models the effect of Rust
to_lowercase / to_ascii_lowercase on the ASCII strings that occur in this
pipeline (every query keyword, column name and ticker in the claims is
ASCII, where the two Rust functions agree). -/
def asciiLower (c : Char) : Char :=
  if 'A' ≤ c ∧ c ≤ 'Z' then Char.ofNat (c.toNat + 32) else c

/-- Model of Rust str::to_lowercase restricted to ASCII. -/
def toLowercase (s : String) : String := ⟨s.data.map asciiLower⟩

/-- Model of Rust str::eq_ignore_ascii_case (FINFILES.rs line 999).  Rust
compares bytes after ASCII lowering; on well-formed UTF-8 this coincides with
comparing the character sequences after ASCII lowering. -/
def eqIgnoreAsciiCase (a b : String) : Bool :=
  a.data.map asciiLower == b.data.map asciiLower

/-- Substring occurrence check over character lists: the pattern is a prefix
of some suffix. -/
def containsSubAux (pat : List Char) : List Char → Bool
  | [] => pat.isEmpty
  | c :: rest => pat.isPrefixOf (c :: rest) || containsSubAux pat rest

/-- Model of Rust str::contains with a string pattern: substring containment.
Byte-level substring search on well-formed UTF-8 coincides with
character-level search, because no UTF-8 continuation byte can start a match
of a well-formed pattern. -/
def strContains (s pat : String) : Bool := containsSubAux pat.data s.data

/-- Error type of the core, translated from the FinAIError enum
(FINFILES.rs lines 580-600). -/
inductive FinAIError where
  | Network (msg : String)
  | TickerNotFound (t : String)
  | SecDataNotFound (t : String)
  | YahooDataNotFound (t : String)
  | DataParsing (msg : String)
  | AIModule (msg : String)
  | Auth (msg : String)
  | Unknown (msg : String)
  | CustomModel (msg : String)
deriving DecidableEq

/-- Decidable equality of Except values, used to evaluate the model on
concrete inputs inside proofs. -/
instance {ε α : Type} [DecidableEq ε] [DecidableEq α] : DecidableEq (Except ε α) := fun x y =>
  match x, y with
  | .ok a, .ok b =>
    match decEq a b with
    | isTrue h => isTrue (by rw [h])
    | isFalse h => isFalse (fun hh => h (Except.ok.inj hh))
  | .error a, .error b =>
    match decEq a b with
    | isTrue h => isTrue (by rw [h])
    | isFalse h => isFalse (fun hh => h (Except.error.inj hh))
  | .ok _, .error _ => isFalse (fun h => Except.noConfusion h)
  | .error _, .ok _ => isFalse (fun h => Except.noConfusion h)

/-- Payload of one polars Series in this pipeline: a Float64 series or a
Utf8 series, with no nulls (the normalizer never produces nulls). -/
inductive ColData where
  | floats (vals : List ℚ)
  | strings (vals : List String)
deriving DecidableEq

/-- One named column of a DataFrame. -/
structure Column where
  name : String
  data : ColData
deriving DecidableEq

/-- Model of a polars DataFrame: the ordered list of its columns. -/
abbrev DataFrame := List Column

/-- Length of a column. -/
def Column.length (c : Column) : ℕ :=
  match c.data with
  | .floats v => v.length
  | .strings v => v.length

/-- Model of polars df.column(name): the first column with the given name,
if any (duplicate names never occur in frames built by this pipeline). -/
def lookupCol : DataFrame → String → Option Column
  | [], _ => none
  | c :: rest, name => if c.name = name then some c else lookupCol rest name

/-- Rounding of a rational to the nearest integer, ties to even.  Used by the
2-decimal formatter. -/
def roundHalfToEven (x : ℚ) : ℤ :=
  let f : ℤ := ⌊x⌋
  let r : ℚ := x - f
  if r < 1 / 2 then f
  else if 1 / 2 < r then f + 1
  else if f % 2 = 0 then f else f + 1

/-- Two-digit zero padding for the fractional part. -/
def pad2 (n : ℕ) : String := if n < 10 then "0" ++ toString n else toString n

/-- Model of the Rust format specifier with two fractional digits applied to
a numeric value: decimal rendering rounded to two places.  Every value
formatted in a theorem below is an exact multiple of 1/100, so no rounding
subtlety arises. -/
def fmt2 (x : ℚ) : String :=
  let sign := if x < 0 then "-" else ""
  let n := (roundHalfToEven (|x| * 100)).toNat
  sign ++ toString (n / 100) ++ "." ++ pad2 (n % 100)

/-- Rational approximation of a square root, adequate for two-decimal
display: floor square root at six decimal places.  It is used only to render
the std field of anomaly report lines; no claim below depends on its value
(the anomaly flag condition itself is stated square-root-free). -/
def qSqrt (x : ℚ) : ℚ :=
  ((Nat.sqrt (Int.toNat ⌊x * 1000000000000⌋) : ℚ)) / 1000000

/-- Simple textual rendering of column data, used only by showDF. -/
def ColData.render : ColData → String
  | .floats v => String.intercalate ", " (v.map fmt2)
  | .strings v => String.intercalate ", " v

/-- Rendering of a DataFrame, standing for the polars Display implementation
used by the raw/table branch (FINFILES.rs line 725).  The exact text polars
draws is irrelevant to every claim: only the literal prefix of the raw branch
output is ever compared, so a simple name/value listing stands in for the
ASCII table. -/
def showDF (df : DataFrame) : String :=
  String.intercalate "\n" (df.map (fun c => c.name ++ ": " ++ c.data.render))

/-- Summary branch of the analyzer (FINFILES.rs lines 729-748): per numeric
column, total, average and most recent value; the quarter count is the length
of the quarter Utf8 column, or 0 when absent. -/
def summaryReport (df : DataFrame) : String :=
  let quarters : ℕ :=
    match lookupCol df "quarter" with
    | some c =>
      match c.data with
      | .strings v => v.length
      | .floats _ => 0
    | none => 0
  let lines := df.filterMap (fun c =>
    match c.data with
    | .floats vals =>
      let sum := vals.foldl (· + ·) 0
      let avg : ℚ := if vals.length > 0 then sum / (vals.length : ℚ) else 0
      let mostRecent := vals.getLast?.getD 0
      some ("  • " ++ c.name ++ ": Total = " ++ fmt2 sum ++ "B, Avg = " ++
        fmt2 avg ++ "B, Most Recent = " ++ fmt2 mostRecent ++ "B")
    | .strings _ => none)
  "Summary: " ++ toString quarters ++ " quarters of SEC data loaded.\n" ++
    String.intercalate "\n" lines

/-- Forecast branch of the analyzer (FINFILES.rs lines 751-767): naive
forecast, the last observed value per numeric column. -/
def forecastReport (df : DataFrame) : String :=
  let lines := df.filterMap (fun c =>
    match c.data with
    | .floats vals =>
      let last := vals.getLast?.getD 0
      some ("  • " ++ c.name ++ ": Next period forecast (naive) = " ++
        fmt2 last ++ "B")
    | .strings _ => none)
  "Time-Series Forecast (naive, last value):\n" ++ String.intercalate "\n" lines

/-- Anomaly lines contributed by one column (FINFILES.rs lines 772-787).
The source flags a value v when |v - mean| > 2 * std with
std = sqrt(variance); since both sides are nonnegative this is equivalent
over the reals to (v - mean)^2 > 4 * variance, which is the square-root-free
form used here.  The printed std field uses the qSqrt display approximation. -/
def colAnomalyLines (c : Column) : List String :=
  match c.data with
  | .strings _ => []
  | .floats vals =>
    if vals.length < 2 then []
    else
      let mean := vals.foldl (· + ·) 0 / (vals.length : ℚ)
      let variance := (vals.map (fun v => (v - mean) ^ 2)).foldl (· + ·) 0 / (vals.length : ℚ)
      vals.enum.filterMap (fun p =>
        if (p.2 - mean) ^ 2 > 4 * variance then
          some ("  • " ++ c.name ++ ": Anomaly detected at period " ++
            toString (p.1 + 1) ++ " (value = " ++ fmt2 p.2 ++ "B, mean = " ++
            fmt2 mean ++ "B, std = " ++ fmt2 (qSqrt variance) ++ "B)")
        else none)

/-- Anomaly branch of the analyzer (FINFILES.rs lines 770-795). -/
def anomalyReport (df : DataFrame) : String :=
  let lines := (df.map colAnomalyLines).flatten
  if lines.isEmpty then "No significant anomalies detected in the available metrics."
  else "Anomaly Detection Results:\n" ++ String.intercalate "\n" lines

/-- Fixed synonym table of the metric-lookup branch (FINFILES.rs lines
816-824). -/
def synonyms : List (String × String) :=
  [("revenue", "revenues"),
   ("net income", "netincomeloss"),
   ("eps", "earningspersharediluted"),
   ("assets", "assets"),
   ("liabilities", "liabilities"),
   ("cash", "cashandcashequivalentsatcarryingvalue"),
   ("operating cash flow", "operatingcashflow")]

/-- Report for a detected metric (FINFILES.rs lines 842-877): recover the
original column name whose lowercase equals the detected metric, then emit
the numeric or textual report.  The Unknown error models the source unwrap on
the original column name, which is unreachable (the detected metric is always
the lowercase of some column name, see reportForMetric_ok below). -/
def reportForMetric (df : DataFrame) (metric : String) : Except FinAIError String :=
  match (df.map Column.name).find? (fun n => toLowercase n == metric) with
  | none => .error (.Unknown "unwrap on None")
  | some origCol =>
    match lookupCol df origCol with
    | none => .ok ("SEC EDGAR: Metric '" ++ origCol ++ "' detected but could not retrieve data.")
    | some series =>
      match series.data with
      | .floats vals =>
        let total := vals.foldl (· + ·) 0
        let mostRecent := vals.getLast?.getD 0
        let avg : ℚ := if vals.length > 0 then total / (vals.length : ℚ) else 0
        .ok ("SEC EDGAR " ++ origCol ++ " Analysis:\n  • Total " ++ origCol ++
          " (last " ++ toString vals.length ++ " periods): " ++ fmt2 total ++
          "B\n  • Average per period: " ++ fmt2 avg ++
          "B\n  • Most recent period: " ++ fmt2 mostRecent ++ "B")
      | .strings vals =>
        .ok ("SEC EDGAR " ++ origCol ++ " values: " ++ String.intercalate ", " vals)

/-- Metric-lookup tail of the analyzer (FINFILES.rs lines 808-888): fuzzy
metric detection over the lowercased non-quarter column names, then the
synonym table, then the per-metric report or the fall-through message. -/
def metricLookup (df : DataFrame) (normalizedQuery : String) : Except FinAIError String :=
  let availableMetrics : List String :=
    ((df.map Column.name).filter (fun n => n ≠ "quarter")).map toLowercase
  let foundMetric : Option String :=
    match availableMetrics.find? (fun m => strContains normalizedQuery m) with
    | some m => some m
    | none =>
      (synonyms.find? (fun p =>
        strContains normalizedQuery p.1 && availableMetrics.contains p.2)).map Prod.snd
  match foundMetric with
  | none =>
    let availableList :=
      if availableMetrics.isEmpty then "No financial metrics available."
      else "Available metrics: " ++ String.intercalate ", " availableMetrics
    .ok ("FINFILES AI: Could not detect a specific financial metric in your query.\n" ++
      availableList ++
      "\nTry asking about one of these metrics, or type 'summarize', 'forecast', 'anomaly', or 'show table'.")
  | some metric => reportForMetric df metric

/-- The FINFILES analyzer (FINFILES.rs lines 720-888): ordered,
first-match-wins intent classification over the lowercased query.  The
quarter/period branch mirrors the source if-let: when the quarter column is
present but not a Utf8 series the question-mark operator propagates an error,
and when it is absent control falls through to the metric lookup.  All f64
statistics are modelled exactly over the rationals. -/
def FinfilesAI.analyze (df : DataFrame) (query : String) : Except FinAIError String :=
  let normalizedQuery := toLowercase query
  if strContains normalizedQuery "raw" || strContains normalizedQuery "table" then
    .ok ("SEC Data Table:\n" ++ showDF df)
  else if strContains normalizedQuery "summarize" || strContains normalizedQuery "summary" then
    .ok (summaryReport df)
  else if strContains normalizedQuery "forecast" || strContains normalizedQuery "predict" then
    .ok (forecastReport df)
  else if strContains normalizedQuery "anomaly" || strContains normalizedQuery "outlier" then
    .ok (anomalyReport df)
  else if strContains normalizedQuery "quarter" || strContains normalizedQuery "period" then
    match lookupCol df "quarter" with
    | some series =>
      match series.data with
      | .strings quarters => .ok ("Loaded quarters from SEC: " ++ String.intercalate ", " quarters)
      | .floats _ => .error (.DataParsing "quarter series is not a Utf8 column")
    | none => metricLookup df normalizedQuery
  else metricLookup df normalizedQuery

/-- ONNX backend (FINFILES.rs lines 893-898): a stub that delegates to the
FinfilesAI analyzer. -/
def OnnxAIModule.analyze (df : DataFrame) (query : String) : Except FinAIError String :=
  FinfilesAI.analyze df query

/-- Remote LLM backend (FINFILES.rs lines 902-907): a stub that delegates to
the FinfilesAI analyzer. -/
def RemoteLLMAIModule.analyze (df : DataFrame) (query : String) : Except FinAIError String :=
  FinfilesAI.analyze df query

/-- Custom model backend (FINFILES.rs lines 911-916): carries a model name
but delegates to the FinfilesAI analyzer. -/
def CustomModelAIModule.analyze (_name : String) (df : DataFrame) (query : String) :
    Except FinAIError String :=
  FinfilesAI.analyze df query

/-- Entry of the bulk ticker lookup document (FINFILES.rs lines 927-932). -/
structure CikEntry where
  cik_str : String
  ticker : String
  title : String
deriving DecidableEq

/-- Recent filings of the filing index (FINFILES.rs lines 944-948). -/
structure RecentFilings where
  accession_number : List String
  form : List String
deriving DecidableEq

/-- Filings wrapper (FINFILES.rs lines 939-942). -/
structure Filings where
  recent : RecentFilings
deriving DecidableEq

/-- Filing index document (FINFILES.rs lines 934-937). -/
structure CompanySubmissions where
  filings : Filings
deriving DecidableEq

/-- One observation of the fact document (FINFILES.rs lines 960-966); either
field may be absent. -/
structure FactUnit where
  fiscal_period : Option String
  value : Option ℚ
deriving DecidableEq

/-- Units of one metric (FINFILES.rs lines 955-958): currency name to
ordered observation list.  The Rust HashMap is modelled as an association
list whose order stands for one iteration order. -/
structure GaapFact where
  units : List (String × List FactUnit)
deriving DecidableEq

/-- The fact document (FINFILES.rs lines 950-953): taxonomy to metric name
to fact data, HashMaps modelled as association lists. -/
structure CompanyFacts where
  facts : List (String × List (String × GaapFact))
deriving DecidableEq

/-- First-match association list lookup, modelling HashMap::get (keys of the
Rust maps are unique, so the first match is the match). -/
def alookup {α : Type} : List (String × α) → String → Option α
  | [], _ => none
  | e :: rest, k => if e.1 = k then some e.2 else alookup rest k

/-- One qualifying write of the normalization loop: a metric key formed by
joining metric name and currency with an underscore, a period label, and the
value already scaled to billions. -/
structure FactWrite where
  key : String
  q : String
  v : ℚ
deriving DecidableEq

/-- Write produced by one observation, if it carries both a fiscal period
and a value (FINFILES.rs lines 1039-1044); the value is divided by 1e9 at
insertion time. -/
def obsWrite (metric currency : String) (item : FactUnit) : Option FactWrite :=
  match item.fiscal_period, item.value with
  | some q, some val => some ⟨metric ++ "_" ++ currency, q, val / 1000000000⟩
  | _, _ => none

/-- Flattening of the three nested loops of FINFILES.rs lines 1036-1048 into
the sequence of qualifying writes, in loop order.  The loop body performs, for
each write in this order, one quarter-set insertion and one metric-map
insertion; the two state components never interact, so they are rebuilt below
by separate folds over this one sequence. -/
def extractWrites (usGaap : List (String × GaapFact)) : List FactWrite :=
  usGaap.flatMap (fun mf => mf.2.units.flatMap (fun ul => ul.2.filterMap (obsWrite mf.1 ul.1)))

/-- Quarter set accumulated by the loop (HashSet::insert), as a
duplicate-free list in first-insertion order; only its underlying set
matters, since it is sorted before use. -/
def quarterSetOf (ws : List FactWrite) : List String :=
  ws.foldl (fun s w => if w.q ∈ s then s else s ++ [w.q]) []

/-- Model of HashMap::insert on the inner period-to-value map: replace the
binding in place, or append a fresh one. -/
def innerInsert (m : List (String × ℚ)) (q : String) (v : ℚ) : List (String × ℚ) :=
  match m with
  | [] => [(q, v)]
  | e :: rest => if e.1 = q then (q, v) :: rest else e :: innerInsert rest q v

/-- Model of metric_map.entry(key).or_default().insert(q, v): update the
inner map of the key in place, or append a fresh entry. -/
def upsertOuter (m : List (String × List (String × ℚ))) (k q : String) (v : ℚ) :
    List (String × List (String × ℚ)) :=
  match m with
  | [] => [(k, innerInsert [] q v)]
  | e :: rest => if e.1 = k then (e.1, innerInsert e.2 q v) :: rest else e :: upsertOuter rest k q v

/-- Metric map accumulated by the loop of FINFILES.rs lines 1036-1048. -/
def metricMapOf (ws : List FactWrite) : List (String × List (String × ℚ)) :=
  ws.foldl (fun m w => upsertOuter m w.key w.q w.v) []

/-- Descending sort by the string order, modelling
quarters.sort_by(|a, b| b.cmp(a)) (FINFILES.rs line 1052).  Rust compares
strings byte-wise on UTF-8, which coincides with the character-wise
(code-point) lexicographic order used here. -/
def sortDescend (l : List String) : List String :=
  l.insertionSort (fun a b => b ≤ a)

/-- First column-building loop (FINFILES.rs lines 1067-1073): one column per
preferred metric found in the map, values looked up per selected quarter with
default 0.0, collecting the included metric names. -/
def buildMetricCols (mmap : List (String × List (String × ℚ))) (quarters : List String) :
    List String → List Column × List String
  | [] => ([], [])
  | metric :: rest =>
    match alookup mmap metric with
    | some qmap =>
      let cs := buildMetricCols mmap quarters rest
      (⟨metric, .floats (quarters.map (fun q => (alookup qmap q).getD 0))⟩ :: cs.1,
       metric :: cs.2)
    | none => buildMetricCols mmap quarters rest

/-- Second column-building loop (FINFILES.rs lines 1075-1079): any metric of
the map not already included. -/
def addRemainingCols (included : List String) (quarters : List String) :
    List (String × List (String × ℚ)) → List Column
  | [] => []
  | e :: rest =>
    if e.1 ∈ included then addRemainingCols included quarters rest
    else ⟨e.1, .floats (quarters.map (fun q => (alookup e.2 q).getD 0))⟩ ::
      addRemainingCols included quarters rest

/-- Model of polars DataFrame::new (FINFILES.rs lines 1081-1082): fails on
duplicate column names or unequal column lengths, as the source maps that
failure to a DataParsing error. -/
def mkDataFrame (cols : List Column) : Except FinAIError DataFrame :=
  if (cols.map Column.name).Nodup ∧ cols.all (fun c => c.length == ((cols.map Column.length).head?.getD 0))
  then .ok cols
  else .error (.DataParsing "Failed to build DataFrame")

/-- Pure tail of load_sec_data_for_ticker (FINFILES.rs lines 1030-1083): the
fact normalizer.  Only the us-gaap taxonomy is read; qualifying observations
are folded into the quarter set and the metric map; the distinct period
labels are sorted descending and truncated to four; failure with
SecDataNotFound when no period remains; one column per metric key with
zero-filled absent combinations. -/
def normalizeFacts (ticker : String) (facts : CompanyFacts) : Except FinAIError DataFrame :=
  let ws :=
    match alookup facts.facts "us-gaap" with
    | some usGaap => extractWrites usGaap
    | none => []
  let metricMap := metricMapOf ws
  let quarters := (sortDescend (quarterSetOf ws)).take 4
  if quarters.isEmpty then .error (.SecDataNotFound ticker)
  else
    let preferredMetrics := metricMap.map Prod.fst
    let bc := buildMetricCols metricMap quarters preferredMetrics
    let columns :=
      (⟨"quarter", ColData.strings quarters⟩ : Column) ::
        (bc.1 ++ addRemainingCols bc.2 quarters metricMap)
    mkDataFrame columns

/-- Outcome of one network attempt: connection-level failure of send(),
success of send() followed by a JSON decoding failure (this also covers an
HTTP error status body that fails to decode, since the source never checks
the status), or a decoded document. -/
inductive FetchAttempt (α : Type) where
  | connFail
  | parseFail
  | success (val : α)
deriving DecidableEq

/-- The bulk lookup document: arbitrary keys to entries (HashMap modelled as
an association list). -/
abbrev CikMap := List (String × CikEntry)

/-- Network oracle for one run of the loader: the scheduled outcome of each
attempt of the CIK-map fetch (consumed in order by the retry loop; at most
three are ever used), and the outcome of the single filing-index and
fact-document fetches. -/
structure NetEnv where
  cikAttempts : List (FetchAttempt CikMap)
  subsAttempt : FetchAttempt CompanySubmissions
  factsAttempt : FetchAttempt CompanyFacts

/-- Observable network-level events of one run, in order: the three kinds of
outbound call and the fixed sleeps of the retry loop. -/
inductive NetCall where
  | cikFetch
  | subsFetch
  | factsFetch
  | sleepSecs (n : ℕ)
deriving DecidableEq

/-- Retry loop of the CIK-map fetch (FINFILES.rs lines 981-996): parse
failure returns immediately with DataParsing; connection failure retries
while fewer than two retries have happened, sleeping two seconds, and then
returns Network.  The empty-schedule case cannot be reached from a schedule
of length at least three, since at most three attempts are made. -/
def cikFetchLoop :
    List (FetchAttempt CikMap) → ℕ → List NetCall → List NetCall × Except FinAIError CikMap
  | [], _, tr => (tr, .error (.Network "Failed to fetch CIK map"))
  | a :: rest, retries, tr =>
    match a with
    | .success j => (tr ++ [.cikFetch], .ok j)
    | .parseFail => (tr ++ [.cikFetch], .error (.DataParsing "Failed to parse CIK map"))
    | .connFail =>
      if retries < 2 then cikFetchLoop rest (retries + 1) (tr ++ [.cikFetch, .sleepSecs 2])
      else (tr ++ [.cikFetch], .error (.Network "Failed to fetch CIK map"))

/-- Model of FinancialDataLoader::load_sec_data_for_ticker (FINFILES.rs
lines 972-1084), returning the network-event trace alongside the result: the
retried CIK-map fetch; the case-insensitive ticker match over the map values
failing with TickerNotFound; the unretried filing-index fetch and the 10-K /
10-Q position check failing with SecDataNotFound; the unretried fact-document
fetch; then the pure normalization tail. -/
def load_sec_data_for_ticker (env : NetEnv) (ticker : String) :
    List NetCall × Except FinAIError DataFrame :=
  match cikFetchLoop env.cikAttempts 0 [] with
  | (tr, .error e) => (tr, .error e)
  | (tr, .ok cikMap) =>
    match (cikMap.map Prod.snd).find? (fun entry => eqIgnoreAsciiCase entry.ticker ticker) with
    | none => (tr, .error (.TickerNotFound ticker))
    | some _entry =>
      let tr2 := tr ++ [NetCall.subsFetch]
      match env.subsAttempt with
      | .connFail => (tr2, .error (.Network "Failed to fetch company submissions"))
      | .parseFail => (tr2, .error (.DataParsing "Failed to parse company submissions"))
      | .success subs =>
        match subs.filings.recent.form.findIdx? (fun form => form == "10-K" || form == "10-Q") with
        | none => (tr2, .error (.SecDataNotFound ticker))
        | some _idx =>
          let tr3 := tr2 ++ [NetCall.factsFetch]
          match env.factsAttempt with
          | .connFail => (tr3, .error (.Network "Failed to fetch company facts"))
          | .parseFail => (tr3, .error (.DataParsing "Failed to parse company facts"))
          | .success facts => (tr3, normalizeFacts ticker facts)

/-- Value of the last observation in document order carrying both a fiscal
period and a value, for a given period label.  This is the statement-side
notion of claim C4; observations missing either field contribute nothing. -/
def lastObsVal (l : List FactUnit) (q : String) : Option ℚ :=
  (l.filterMap (fun item =>
    match item.fiscal_period, item.value with
    | some p, some v => if p = q then some v else none
    | _, _ => none)).getLast?

/-- Two-level lookup in the metric map: the value stored for a metric key at
a period label, if any. -/
def cellLookup (mmap : List (String × List (String × ℚ))) (k q : String) : Option ℚ :=
  (alookup mmap k).bind (fun qm => alookup qm q)

/-- Column the normalizer builds for a metric key: per selected quarter, the
stored value or the 0.0 fill. -/
def colFor (mmap : List (String × List (String × ℚ))) (quarters : List String)
    (metric : String) : Column :=
  ⟨metric, ColData.floats (quarters.map (fun q => (cellLookup mmap metric q).getD 0))⟩

/-- Totality of the flipped string order, used for the descending sort. -/
instance : IsTotal String (fun a b => b ≤ a) := ⟨fun a b => le_total b a⟩

/-- Transitivity of the flipped string order, used for the descending sort. -/
instance : IsTrans String (fun a b => b ≤ a) := ⟨fun _ _ _ h1 h2 => le_trans h2 h1⟩

/-- Concrete four-quarter table with a revenues_USD column, the round-trip
configuration of the spec. -/
def dfRevenues : DataFrame :=
  [⟨"quarter", ColData.strings ["Q4", "Q3", "Q2", "Q1"]⟩,
   ⟨"revenues_USD", ColData.floats [1, 2, 3, 4]⟩]

/-- Concrete table lacking a quarter column. -/
def dfNoQuarterCol : DataFrame := [⟨"Revenues_USD", ColData.floats [1, 2]⟩]

/-- Concrete table whose single numeric column is four equal values and one
outlier. -/
def dfBoundary : DataFrame := [⟨"Revenues_USD", ColData.floats [1, 1, 1, 1, 100]⟩]

/-- Concrete bulk lookup document with one entry. -/
def cikMapApple : CikMap := [("0000320193", ⟨"320193", "AAPL", "Apple Inc."⟩)]

/-- Concrete filing index containing a 10-K. -/
def subsTenK : CompanySubmissions := ⟨⟨⟨["0000320193-23-000106"], ["10-K"]⟩⟩⟩

/-- Concrete fact document with one us-gaap metric in one currency; the Q3
period appears twice (last write should win) and two observations are
incomplete. -/
def factsSample : CompanyFacts :=
  ⟨[("us-gaap",
     [("Revenues", ⟨[("USD",
        [⟨some "Q3", some 5000000000⟩,
         ⟨none, some 1000000000⟩,
         ⟨some "Q3", some 7000000000⟩,
         ⟨some "Q1", none⟩,
         ⟨some "Q2", some 3000000000⟩])]⟩)])]⟩

/-- The table factsSample normalizes to. -/
def dfSample : DataFrame :=
  [⟨"quarter", ColData.strings ["Q3", "Q2"]⟩,
   ⟨"Revenues_USD", ColData.floats [7, 3]⟩]

/-- Concrete fact document with no us-gaap taxonomy. -/
def factsNonGaap : CompanyFacts :=
  ⟨[("ifrs-full", [("Revenue", ⟨[("USD", [⟨some "Q1", some 1000000000⟩])]⟩)])]⟩

/-- Environment in which the bulk lookup succeeds at once and every later
fetch would fail at the connection level. -/
def envSubsDown : NetEnv := ⟨[.success cikMapApple], .connFail, .connFail⟩

/-- Environment in which the bulk lookup conn-fails twice and then succeeds,
and the rest of the pipeline succeeds. -/
def envRetrySucceed : NetEnv :=
  ⟨[.connFail, .connFail, .success cikMapApple], .success subsTenK, .success factsSample⟩

/-- Environment in which every bulk lookup attempt conn-fails. -/
def envRetryExhausted : NetEnv :=
  ⟨[.connFail, .connFail, .connFail], .success subsTenK, .success factsSample⟩

/-- Environment in which the first bulk lookup attempt returns a body that
fails to decode. -/
def envParseFailFirst : NetEnv :=
  ⟨[.parseFail, .connFail, .connFail], .success subsTenK, .success factsSample⟩

/-- Environment in which only the fact-document fetch conn-fails. -/
def envFactsDown : NetEnv := ⟨[.success cikMapApple], .success subsTenK, .connFail⟩

/-- C10: for every table and every query, each of the three stub backends
(OnnxAIModule, RemoteLLMAIModule, CustomModelAIModule) returns exactly the
same result as the FinfilesAI analyzer on the same inputs.  The source
implementations delegate verbatim, so the equalities are definitional. -/
theorem stub_backends_delegate :
    ∀ (df : DataFrame) (query : String) (name : String),
      OnnxAIModule.analyze df query = FinfilesAI.analyze df query ∧
      RemoteLLMAIModule.analyze df query = FinfilesAI.analyze df query ∧
      CustomModelAIModule.analyze name df query = FinfilesAI.analyze df query :=
  fun _ _ _ => ⟨rfl, rfl, rfl⟩

set_option maxRecDepth 100000 in
/-- C7 counterexample: the query containing both summary and forecast
together with raw resolves to the raw-dump path (rule 1), not the summary
path, refuting the claim as universally stated over queries containing both
words. -/
theorem raw_beats_summary :
    FinfilesAI.analyze dfRevenues "raw summary forecast" =
      .ok ("SEC Data Table:\n" ++ showDF dfRevenues) ∧
    ("SEC Data Table:\n" ++ showDF dfRevenues) ≠ summaryReport dfRevenues := by
  constructor
  · rfl
  · with_unfolding_all decide

/-- C7 amended: intent classification is ordered first-match-wins; for every
table, a query containing both summary and forecast, and containing neither
raw nor table, resolves to the summary path (rule 2), not the forecast path
(rule 3). -/
theorem summary_beats_forecast (df : DataFrame) (q : String)
    (hsum : strContains (toLowercase q) "summary" = true)
    (_hfc : strContains (toLowercase q) "forecast" = true)
    (hraw : strContains (toLowercase q) "raw" = false)
    (htab : strContains (toLowercase q) "table" = false) :
    FinfilesAI.analyze df q = .ok (summaryReport df) := by
  simp only [FinfilesAI.analyze, hraw, htab, hsum, Bool.or_false, Bool.or_true,
    Bool.false_or, if_true, if_false]
  simp

/-- C7 amended witness at a concrete query and table. -/
theorem summary_beats_forecast_witness :
    FinfilesAI.analyze dfRevenues "summary forecast" = .ok (summaryReport dfRevenues) :=
  summary_beats_forecast dfRevenues "summary forecast" (by decide) (by decide)
    (by decide) (by decide)

set_option maxRecDepth 100000 in
/-- C2 counterexample: on the four-quarter table whose only metric column is
revenues_USD with values 1,2,3,4, the query revenue does not produce the
claimed report; the synonym table maps revenue to revenues, no column is
named revenues, and the verbatim match fails too, so the analyzer answers
with the could-not-detect message. -/
theorem revenue_synonym_miss :
    FinfilesAI.analyze dfRevenues "revenue" =
      .ok ("FINFILES AI: Could not detect a specific financial metric in your query.\n" ++
        "Available metrics: revenues_usd" ++
        "\nTry asking about one of these metrics, or type 'summarize', 'forecast', 'anomaly', or 'show table'.") ∧
    FinfilesAI.analyze dfRevenues "revenue" ≠
      .ok ("SEC EDGAR revenues_USD Analysis:\n  • Total revenues_USD (last 4 periods): " ++
        "10.00B\n  • Average per period: 2.50B\n  • Most recent period: 4.00B") := by
  constructor
  · with_unfolding_all decide
  · with_unfolding_all decide

set_option maxRecDepth 100000 in
/-- C2 amended: on that table the query revenue yields the could-not-detect
message (the synonym canonical revenues is not a column name, and revenue is
not a verbatim column name); the claimed report with total 10.00, average
2.50 and most-recent 4.00 (last in normalization order) is produced when the
query contains the column name verbatim, as in revenues_usd. -/
theorem revenue_query_resolution :
    FinfilesAI.analyze dfRevenues "revenue" =
      .ok ("FINFILES AI: Could not detect a specific financial metric in your query.\n" ++
        "Available metrics: revenues_usd" ++
        "\nTry asking about one of these metrics, or type 'summarize', 'forecast', 'anomaly', or 'show table'.") ∧
    FinfilesAI.analyze dfRevenues "revenues_usd" =
      .ok ("SEC EDGAR revenues_USD Analysis:\n  • Total revenues_USD (last 4 periods): " ++
        "10.00B\n  • Average per period: 2.50B\n  • Most recent period: 4.00B") := by
  constructor
  · with_unfolding_all decide
  · with_unfolding_all decide

/-- Column lookup misses exactly when no column bears the name. -/
theorem lookupCol_eq_none_of_not_mem {df : DataFrame} {n : String}
    (h : n ∉ df.map Column.name) : lookupCol df n = none := by
  induction df with
  | nil => rfl
  | cons c rest ih =>
    simp only [List.map, List.mem_cons, not_or] at h
    simp only [lookupCol]
    rw [if_neg (fun hc => h.1 hc.symm)]
    exact ih h.2

/-- Column lookup hits whenever some column bears the name. -/
theorem lookupCol_isSome_of_mem {df : DataFrame} {n : String}
    (h : n ∈ df.map Column.name) : (lookupCol df n).isSome := by
  induction df with
  | nil => simp at h
  | cons c rest ih =>
    simp only [lookupCol]
    by_cases hc : c.name = n
    · rw [if_pos hc]; rfl
    · rw [if_neg hc]
      simp only [List.map, List.mem_cons] at h
      exact ih (h.resolve_left (fun he => hc he.symm))

/-- The per-metric report never returns an error when the metric is the
lowercase of some column name: the source unwrap cannot fire. -/
theorem reportForMetric_ok (df : DataFrame) (m : String)
    (h : ∃ n ∈ df.map Column.name, toLowercase n = m) :
    ∃ s, reportForMetric df m = .ok s := by
  obtain ⟨n, hn, hlow⟩ := h
  have hfind : ((df.map Column.name).find? (fun x => toLowercase x == m)).isSome := by
    rw [List.find?_isSome]
    exact ⟨n, hn, by simp [hlow]⟩
  obtain ⟨orig, horig⟩ := Option.isSome_iff_exists.mp hfind
  have hmem : orig ∈ df.map Column.name := List.mem_of_find?_eq_some horig
  obtain ⟨⟨nm, dat⟩, hseries⟩ := Option.isSome_iff_exists.mp (lookupCol_isSome_of_mem hmem)
  simp only [reportForMetric, horig, hseries]
  cases dat with
  | floats vals => exact ⟨_, rfl⟩
  | strings vals => exact ⟨_, rfl⟩

/-- The metric-lookup tail of the analyzer always returns Ok text. -/
theorem metricLookup_ok (df : DataFrame) (nq : String) :
    ∃ s, metricLookup df nq = .ok s := by
  simp only [metricLookup]
  cases h1 : (((df.map Column.name).filter (fun n => n ≠ "quarter")).map toLowercase).find?
      (fun m => strContains nq m) with
  | some m =>
    have hm := List.mem_of_find?_eq_some h1
    obtain ⟨n, hn, hlow⟩ := List.mem_map.mp hm
    exact reportForMetric_ok df m ⟨n, List.mem_of_mem_filter hn, hlow⟩
  | none =>
    cases h2 : synonyms.find? (fun p => strContains nq p.1 &&
        (((df.map Column.name).filter (fun n => n ≠ "quarter")).map toLowercase).contains p.2) with
    | none => exact ⟨_, rfl⟩
    | some p =>
      have hp := List.find?_some h2
      have hmem : p.2 ∈ ((df.map Column.name).filter (fun n => n ≠ "quarter")).map toLowercase := by
        have := (Bool.and_eq_true _ _).mp hp
        simpa [List.contains, List.elem_iff] using this.2
      obtain ⟨n, hn, hlow⟩ := List.mem_map.mp hmem
      exact reportForMetric_ok df p.2 ⟨n, List.mem_of_mem_filter hn, hlow⟩

set_option maxRecDepth 100000 in
/-- C6 counterexample: on a table lacking a quarter column, a period query
does not return an error: the analyzer silently falls through to the metric
lookup and answers Ok with the could-not-detect message. -/
theorem missing_quarter_returns_ok :
    FinfilesAI.analyze dfNoQuarterCol "period" =
      .ok ("FINFILES AI: Could not detect a specific financial metric in your query.\n" ++
        "Available metrics: revenues_usd" ++
        "\nTry asking about one of these metrics, or type 'summarize', 'forecast', 'anomaly', or 'show table'.") := by
  with_unfolding_all decide

/-- C6 amended: for every table lacking a column named quarter, a query
containing quarter or period (and none of the earlier command words) falls
through the period-listing branch to the metric-lookup path and returns Ok
text — never an error and never a crash. -/
theorem missing_quarter_falls_through (df : DataFrame) (q : String)
    (hq : "quarter" ∉ df.map Column.name)
    (hper : (strContains (toLowercase q) "quarter" || strContains (toLowercase q) "period") = true)
    (hraw : strContains (toLowercase q) "raw" = false)
    (htab : strContains (toLowercase q) "table" = false)
    (hsz : strContains (toLowercase q) "summarize" = false)
    (hsm : strContains (toLowercase q) "summary" = false)
    (hfc : strContains (toLowercase q) "forecast" = false)
    (hpr : strContains (toLowercase q) "predict" = false)
    (han : strContains (toLowercase q) "anomaly" = false)
    (hou : strContains (toLowercase q) "outlier" = false) :
    FinfilesAI.analyze df q = metricLookup df (toLowercase q) ∧
    ∃ s, FinfilesAI.analyze df q = .ok s := by
  have hnone : lookupCol df "quarter" = none := lookupCol_eq_none_of_not_mem hq
  have heq : FinfilesAI.analyze df q = metricLookup df (toLowercase q) := by
    simp [FinfilesAI.analyze, hraw, htab, hsz, hsm, hfc, hpr, han, hou, hper, hnone]
  refine ⟨heq, ?_⟩
  rw [heq]
  exact metricLookup_ok df (toLowercase q)

/-- C6 amended witness at a concrete table and query. -/
theorem missing_quarter_falls_through_witness :
    FinfilesAI.analyze dfNoQuarterCol "period" = metricLookup dfNoQuarterCol (toLowercase "period") ∧
    ∃ s, FinfilesAI.analyze dfNoQuarterCol "period" = .ok s :=
  missing_quarter_falls_through dfNoQuarterCol "period" (by decide) (by decide) (by decide)
    (by decide) (by decide) (by decide) (by decide) (by decide) (by decide) (by decide)

set_option maxRecDepth 100000 in
/-- C5 counterexample: on the table whose single numeric column is
1,1,1,1,100, an anomaly query flags nothing at all: the analyzer returns the
fixed no-anomalies message, refuting the claim that the value 100 is
flagged.  The absolute deviation of 100 from the mean 20.8 is 79.2, exactly
equal to twice the population standard deviation 39.6, and the threshold is
strict; the IEEE binary64 evaluation of the source lands on the same exact
tie, so the exact-rational model agrees with the code here. -/
theorem anomaly_hundred_not_flagged :
    FinfilesAI.analyze dfBoundary "anomaly" =
      .ok "No significant anomalies detected in the available metrics." := by
  with_unfolding_all decide

/-- C5 amended: for the table whose numeric column is 1,1,1,1,100, every
anomaly query (one containing anomaly or outlier and none of the earlier
command words) flags no value of that column: the outlier sits exactly on
the 2-sigma boundary, the comparison is strict, so the fixed no-anomalies
message is returned. -/
theorem anomaly_boundary_not_flagged (q : String)
    (han : (strContains (toLowercase q) "anomaly" || strContains (toLowercase q) "outlier") = true)
    (hraw : strContains (toLowercase q) "raw" = false)
    (htab : strContains (toLowercase q) "table" = false)
    (hsz : strContains (toLowercase q) "summarize" = false)
    (hsm : strContains (toLowercase q) "summary" = false)
    (hfc : strContains (toLowercase q) "forecast" = false)
    (hpr : strContains (toLowercase q) "predict" = false) :
    FinfilesAI.analyze dfBoundary q =
      .ok "No significant anomalies detected in the available metrics." := by
  have hrep : anomalyReport dfBoundary =
      "No significant anomalies detected in the available metrics." := by
    with_unfolding_all decide
  simp [FinfilesAI.analyze, hraw, htab, hsz, hsm, hfc, hpr, han, hrep]

/-- C5 amended witness at the concrete query. -/
theorem anomaly_boundary_not_flagged_witness :
    FinfilesAI.analyze dfBoundary "anomaly" =
      .ok "No significant anomalies detected in the available metrics." :=
  anomaly_boundary_not_flagged "anomaly" (by decide) (by decide) (by decide) (by decide)
    (by decide) (by decide) (by decide)

/-- Association lookup misses when no entry bears the key. -/
theorem alookup_eq_none {α : Type} {m : List (String × α)} {k : String}
    (h : ∀ p ∈ m, p.1 ≠ k) : alookup m k = none := by
  induction m with
  | nil => rfl
  | cons e rest ih =>
    simp only [alookup]
    rw [if_neg (h e (List.mem_cons_self e rest))]
    exact ih (fun p hp => h p (List.mem_cons_of_mem e hp))

/-- C8: for every fact document whose taxonomies are all keyed other than
us-gaap, normalization fails with the zero-periods error rather than
returning an empty table.  The code raises FinAIError.SecDataNotFound here,
which is the NoData kind of the design error taxonomy (normalization
produced zero periods). -/
theorem non_gaap_normalize_fails (ticker : String) (facts : CompanyFacts)
    (h : ∀ p ∈ facts.facts, p.1 ≠ "us-gaap") :
    normalizeFacts ticker facts = .error (.SecDataNotFound ticker) := by
  have hl : alookup facts.facts "us-gaap" = none := alookup_eq_none h
  unfold normalizeFacts
  rw [hl]
  rfl

/-- C8 witness: a concrete document with only an ifrs-full taxonomy. -/
theorem non_gaap_normalize_fails_witness :
    normalizeFacts "T" factsNonGaap = .error (.SecDataNotFound "T") :=
  non_gaap_normalize_fails "T" factsNonGaap (by decide)

/-- Trace discipline of the retry loop: it only ever appends lookup-fetch
events and two-second sleeps, and performs at most three fetch attempts when
started with no prior retries. -/
theorem cikFetchLoop_trace (attempts : List (FetchAttempt CikMap)) (r : ℕ) (tr : List NetCall) :
    ∃ ext, (cikFetchLoop attempts r tr).1 = tr ++ ext ∧
      (∀ x ∈ ext, x = NetCall.cikFetch ∨ x = NetCall.sleepSecs 2) ∧
      ext.count NetCall.cikFetch ≤ max 1 (3 - r) := by
  induction attempts generalizing r tr with
  | nil => exact ⟨[], by simp [cikFetchLoop], by intro x hx; simp at hx, by simp⟩
  | cons a rest ih =>
    cases a with
    | success j =>
      refine ⟨[NetCall.cikFetch], by simp [cikFetchLoop], ?_, ?_⟩
      · intro x hx; simp at hx; exact Or.inl hx
      · have : ([NetCall.cikFetch].count NetCall.cikFetch) = 1 := by decide
        rw [this]; exact le_max_left _ _
    | parseFail =>
      refine ⟨[NetCall.cikFetch], by simp [cikFetchLoop], ?_, ?_⟩
      · intro x hx; simp at hx; exact Or.inl hx
      · have : ([NetCall.cikFetch].count NetCall.cikFetch) = 1 := by decide
        rw [this]; exact le_max_left _ _
    | connFail =>
      by_cases hr : r < 2
      · obtain ⟨ext, he, hmem, hcount⟩ := ih (r + 1) (tr ++ [NetCall.cikFetch, NetCall.sleepSecs 2])
        refine ⟨[NetCall.cikFetch, NetCall.sleepSecs 2] ++ ext, ?_, ?_, ?_⟩
        · simp only [cikFetchLoop, if_pos hr]
          rw [he, List.append_assoc]
        · intro x hx
          rcases List.mem_append.mp hx with hx | hx
          · simp at hx
            rcases hx with hx | hx
            · exact Or.inl hx
            · exact Or.inr hx
          · exact hmem x hx
        · rw [List.count_append]
          have h2 : ([NetCall.cikFetch, NetCall.sleepSecs 2].count NetCall.cikFetch) = 1 := by decide
          rw [h2]
          omega
      · refine ⟨[NetCall.cikFetch], by simp only [cikFetchLoop, if_neg hr], ?_, ?_⟩
        · intro x hx; simp at hx; exact Or.inl hx
        · have : ([NetCall.cikFetch].count NetCall.cikFetch) = 1 := by decide
          rw [this]; exact le_max_left _ _

/-- Event counts of the retry loop started fresh: no filing-index or
fact-document fetches at all, and at most three lookup attempts. -/
theorem cikTrace_counts (attempts : List (FetchAttempt CikMap)) :
    (cikFetchLoop attempts 0 []).1.count NetCall.subsFetch = 0 ∧
    (cikFetchLoop attempts 0 []).1.count NetCall.factsFetch = 0 ∧
    (cikFetchLoop attempts 0 []).1.count NetCall.cikFetch ≤ 3 := by
  obtain ⟨ext, he, hmem, hcount⟩ := cikFetchLoop_trace attempts 0 []
  rw [he, List.nil_append]
  refine ⟨?_, ?_, ?_⟩
  · rw [List.count_eq_zero]
    intro hx
    rcases hmem _ hx with h | h <;> exact NetCall.noConfusion h
  · rw [List.count_eq_zero]
    intro hx
    rcases hmem _ hx with h | h <;> exact NetCall.noConfusion h
  · calc ext.count NetCall.cikFetch ≤ max 1 (3 - 0) := hcount
      _ = 3 := by norm_num

/-- Shape of the loader trace: the retry-loop trace, possibly followed by
one filing-index fetch, possibly followed by one fact-document fetch. -/
theorem load_trace_cases (env : NetEnv) (t : String) :
    (load_sec_data_for_ticker env t).1 = (cikFetchLoop env.cikAttempts 0 []).1 ∨
    (load_sec_data_for_ticker env t).1 =
      (cikFetchLoop env.cikAttempts 0 []).1 ++ [NetCall.subsFetch] ∨
    (load_sec_data_for_ticker env t).1 =
      (cikFetchLoop env.cikAttempts 0 []).1 ++ [NetCall.subsFetch, NetCall.factsFetch] := by
  unfold load_sec_data_for_ticker
  split
  · rename_i tr e heq
    rw [heq]
    exact Or.inl rfl
  · rename_i tr m heq
    rw [heq]
    split
    · exact Or.inl rfl
    · split
      · exact Or.inr (Or.inl rfl)
      · exact Or.inr (Or.inl rfl)
      · split
        · exact Or.inr (Or.inl rfl)
        · split
          · right; right; simp
          · right; right; simp
          · right; right; simp

/-- C9: for every environment and ticker, when the bulk lookup succeeds and
no entry matches the ticker case-insensitively, the loader fails with
TickerNotFound and its trace contains no filing-index fetch and no
fact-document fetch: resolution failure stops the pipeline before any
further network call. -/
theorem unresolved_ticker_stops_pipeline (env : NetEnv) (t : String)
    (tr : List NetCall) (m : CikMap)
    (hcik : cikFetchLoop env.cikAttempts 0 [] = (tr, .ok m))
    (hnone : ∀ e ∈ m, eqIgnoreAsciiCase e.2.ticker t = false) :
    load_sec_data_for_ticker env t = (tr, .error (.TickerNotFound t)) ∧
    NetCall.subsFetch ∉ tr ∧ NetCall.factsFetch ∉ tr := by
  have hfind : (m.map Prod.snd).find? (fun entry => eqIgnoreAsciiCase entry.ticker t) = none := by
    rw [List.find?_eq_none]
    intro x hx
    obtain ⟨p, hp, hpx⟩ := List.mem_map.mp hx
    rw [← hpx]
    simp [hnone p hp]
  have hload : load_sec_data_for_ticker env t = (tr, .error (.TickerNotFound t)) := by
    unfold load_sec_data_for_ticker
    rw [hcik]
    simp only [hfind]
  obtain ⟨ext, he, hmem, _⟩ := cikFetchLoop_trace env.cikAttempts 0 []
  rw [hcik] at he
  simp only [List.nil_append] at he
  subst he
  refine ⟨hload, ?_, ?_⟩
  · intro hx
    rcases hmem _ hx with h | h <;> exact NetCall.noConfusion h
  · intro hx
    rcases hmem _ hx with h | h <;> exact NetCall.noConfusion h

/-- C9 witness: a concrete environment whose lookup table has no entry for
the requested ticker. -/
theorem unresolved_ticker_stops_pipeline_witness :
    load_sec_data_for_ticker envSubsDown "MSFT" =
      ([NetCall.cikFetch], .error (.TickerNotFound "MSFT")) ∧
    NetCall.subsFetch ∉ [NetCall.cikFetch] ∧ NetCall.factsFetch ∉ [NetCall.cikFetch] :=
  unresolved_ticker_stops_pipeline envSubsDown "MSFT" [NetCall.cikFetch] cikMapApple
    (by decide) (by decide)

/-- C1 counterexample: a connection-level failure of the filing-index fetch
is not retried.  With the bulk lookup succeeding at once and the
filing-index fetch conn-failing, the loader fails immediately with a Network
error after exactly one filing-index attempt and no sleep — refuting the
claim that the retry policy (2 retries, 2-second delays) covers the
filing-index fetch. -/
theorem retry_filing_index_not_retried :
    load_sec_data_for_ticker envSubsDown "AAPL" =
      ([NetCall.cikFetch, NetCall.subsFetch],
        .error (.Network "Failed to fetch company submissions")) := by
  decide

/-- C1 amended: retry on transient failure applies to exactly one network
call, the bulk ticker-lookup fetch: in every run the filing-index and
fact-document fetches are attempted at most once while the bulk lookup is
attempted at most three times (2 retries); concretely, two connection
failures of the bulk lookup are retried after 2-second sleeps and the run
then proceeds, a third consecutive connection failure fails the run with a
Network error, a parse failure of the bulk lookup fails immediately with no
retry, and a connection failure of the fact-document fetch likewise fails
immediately. -/
theorem retry_policy_single_call :
    (∀ (env : NetEnv) (t : String),
      (load_sec_data_for_ticker env t).1.count NetCall.subsFetch ≤ 1 ∧
      (load_sec_data_for_ticker env t).1.count NetCall.factsFetch ≤ 1 ∧
      (load_sec_data_for_ticker env t).1.count NetCall.cikFetch ≤ 3) ∧
    load_sec_data_for_ticker envRetrySucceed "AAPL" =
      ([NetCall.cikFetch, NetCall.sleepSecs 2, NetCall.cikFetch, NetCall.sleepSecs 2,
        NetCall.cikFetch, NetCall.subsFetch, NetCall.factsFetch], .ok dfSample) ∧
    load_sec_data_for_ticker envRetryExhausted "AAPL" =
      ([NetCall.cikFetch, NetCall.sleepSecs 2, NetCall.cikFetch, NetCall.sleepSecs 2,
        NetCall.cikFetch], .error (.Network "Failed to fetch CIK map")) ∧
    load_sec_data_for_ticker envParseFailFirst "AAPL" =
      ([NetCall.cikFetch], .error (.DataParsing "Failed to parse CIK map")) ∧
    load_sec_data_for_ticker envFactsDown "AAPL" =
      ([NetCall.cikFetch, NetCall.subsFetch, NetCall.factsFetch],
        .error (.Network "Failed to fetch company facts")) := by
  refine ⟨?_, ?_, by decide, by decide, by decide⟩
  · intro env t
    obtain ⟨hs, hf, hc⟩ := cikTrace_counts env.cikAttempts
    have c1 : List.count NetCall.subsFetch [NetCall.subsFetch] = 1 := by decide
    have c2 : List.count NetCall.factsFetch [NetCall.subsFetch] = 0 := by decide
    have c3 : List.count NetCall.cikFetch [NetCall.subsFetch] = 0 := by decide
    have c4 : List.count NetCall.subsFetch [NetCall.subsFetch, NetCall.factsFetch] = 1 := by decide
    have c5 : List.count NetCall.factsFetch [NetCall.subsFetch, NetCall.factsFetch] = 1 := by decide
    have c6 : List.count NetCall.cikFetch [NetCall.subsFetch, NetCall.factsFetch] = 0 := by decide
    rcases load_trace_cases env t with h | h | h <;> rw [h] <;>
      refine ⟨?_, ?_, ?_⟩ <;>
      (try simp only [List.count_append, c1, c2, c3, c4, c5, c6]) <;>
      omega
  · with_unfolding_all decide

/-- The quarter-set fold preserves freedom from duplicates. -/
theorem quarterSet_foldl_nodup (ws : List FactWrite) :
    ∀ s : List String, s.Nodup →
      (ws.foldl (fun s w => if w.q ∈ s then s else s ++ [w.q]) s).Nodup := by
  induction ws with
  | nil => intro s hs; exact hs
  | cons w rest ih =>
    intro s hs
    simp only [List.foldl_cons]
    by_cases hm : w.q ∈ s
    · rw [if_pos hm]; exact ih s hs
    · rw [if_neg hm]
      refine ih _ ?_
      simp [List.nodup_append, hs, hm]

/-- The quarter set accumulated from the writes has no duplicates. -/
theorem quarterSetOf_nodup (ws : List FactWrite) : (quarterSetOf ws).Nodup :=
  quarterSet_foldl_nodup ws [] List.nodup_nil

/-- The descending sort is sorted for the flipped order. -/
theorem sortDescend_sorted (l : List String) :
    (sortDescend l).Pairwise (fun a b => b ≤ a) :=
  List.sorted_insertionSort (fun a b => b ≤ a) l

/-- The descending sort preserves freedom from duplicates. -/
theorem sortDescend_nodup {l : List String} (h : l.Nodup) : (sortDescend l).Nodup :=
  (List.perm_insertionSort (fun a b => b ≤ a) l).nodup_iff.mpr h

/-- On a duplicate-free list the descending sort is strictly descending. -/
theorem sortDescend_strict {l : List String} (h : l.Nodup) :
    (sortDescend l).Pairwise (fun a b => b < a) := by
  have h1 := sortDescend_sorted l
  have h2 : (sortDescend l).Pairwise (fun a b => a ≠ b) := sortDescend_nodup h
  exact (h1.and h2).imp (fun hab => lt_of_le_of_ne hab.1 (Ne.symm hab.2))

/-- DataFrame construction succeeds only by returning its input columns. -/
theorem mkDataFrame_ok {cols df : List Column} (h : mkDataFrame cols = .ok df) :
    df = cols := by
  unfold mkDataFrame at h
  split at h
  · exact (Except.ok.inj h).symm
  · exact absurd h (by simp)

/-- A key occurring among the first components of an association list has a
successful lookup. -/
theorem mem_keys_isSome {α : Type} {m : List (String × α)} {k : String}
    (h : k ∈ m.map Prod.fst) : (alookup m k).isSome := by
  induction m with
  | nil => simp at h
  | cons e rest ih =>
    simp only [alookup]
    by_cases he : e.1 = k
    · rw [if_pos he]; rfl
    · rw [if_neg he]
      simp only [List.map, List.mem_cons] at h
      exact ih (h.resolve_left (fun hh => he hh.symm))

/-- The first column-building loop over keys that all resolve produces one
column per key, in order, and includes every key. -/
theorem buildMetricCols_eq (mmap : List (String × List (String × ℚ))) (quarters : List String) :
    ∀ keys : List String, (∀ k ∈ keys, (alookup mmap k).isSome) →
      buildMetricCols mmap quarters keys = (keys.map (colFor mmap quarters), keys) := by
  intro keys
  induction keys with
  | nil => intro _; rfl
  | cons k rest ih =>
    intro h
    obtain ⟨qm, hqm⟩ := Option.isSome_iff_exists.mp (h k (List.mem_cons_self k rest))
    have hrest := ih (fun x hx => h x (List.mem_cons_of_mem k hx))
    simp only [buildMetricCols, hqm, hrest, List.map_cons, Prod.mk.injEq, colFor, cellLookup]
    simp [hqm]

/-- The second column-building loop adds nothing when every key is already
included. -/
theorem addRemainingCols_nil (included : List String) (quarters : List String) :
    ∀ m : List (String × List (String × ℚ)), (∀ e ∈ m, e.1 ∈ included) →
      addRemainingCols included quarters m = [] := by
  intro m
  induction m with
  | nil => intro _; rfl
  | cons e rest ih =>
    intro h
    simp only [addRemainingCols]
    rw [if_pos (h e (List.mem_cons_self e rest))]
    exact ih (fun x hx => h x (List.mem_cons_of_mem e hx))

/-- Shape of every successfully normalized table: the quarter column of the
selected (nonempty, sorted, truncated) quarters followed by one column per
metric-map key with zero-filled lookups. -/
theorem normalizeFacts_ok_form {t : String} {facts : CompanyFacts} {df : DataFrame}
    (h : normalizeFacts t facts = .ok df) :
    ∃ ws quarters,
      (ws = match alookup facts.facts "us-gaap" with
        | some usGaap => extractWrites usGaap
        | none => []) ∧
      quarters = (sortDescend (quarterSetOf ws)).take 4 ∧
      quarters ≠ [] ∧
      df = ⟨"quarter", ColData.strings quarters⟩ ::
        ((metricMapOf ws).map Prod.fst).map (colFor (metricMapOf ws) quarters) := by
  simp only [normalizeFacts] at h
  split at h
  · exact absurd h (by simp)
  · rename_i hne
    refine ⟨_, _, rfl, rfl, ?_, ?_⟩
    · intro hq
      rw [hq] at hne
      exact hne rfl
    · have hb := buildMetricCols_eq
        (metricMapOf (match alookup facts.facts "us-gaap" with
          | some usGaap => extractWrites usGaap
          | none => []))
        ((sortDescend (quarterSetOf (match alookup facts.facts "us-gaap" with
          | some usGaap => extractWrites usGaap
          | none => []))).take 4)
        ((metricMapOf (match alookup facts.facts "us-gaap" with
          | some usGaap => extractWrites usGaap
          | none => [])).map Prod.fst)
        (fun k hk => mem_keys_isSome hk)
      rw [hb] at h
      have ha := addRemainingCols_nil
        ((metricMapOf (match alookup facts.facts "us-gaap" with
          | some usGaap => extractWrites usGaap
          | none => [])).map Prod.fst)
        ((sortDescend (quarterSetOf (match alookup facts.facts "us-gaap" with
          | some usGaap => extractWrites usGaap
          | none => []))).take 4)
        (metricMapOf (match alookup facts.facts "us-gaap" with
          | some usGaap => extractWrites usGaap
          | none => []))
        (fun e he => List.mem_map_of_mem Prod.fst he)
      rw [ha, List.append_nil] at h
      exact (mkDataFrame_ok h) 

/-- C3: for every normalized table produced from a fact document, every
column has the same length as the quarter column, that length is at most 4,
and the quarter labels are pairwise distinct and strictly descending in the
lexicographic order (the Pairwise greater-than conclusion gives both). -/
theorem normalized_table_shape (ticker : String) (facts : CompanyFacts) (df : DataFrame)
    (h : normalizeFacts ticker facts = .ok df) :
    ∃ qs, df.head? = some ⟨"quarter", ColData.strings qs⟩ ∧ qs.length ≤ 4 ∧
      (∀ c ∈ df, c.length = qs.length) ∧ qs.Pairwise (fun a b => b < a) := by
  obtain ⟨ws, quarters, hws, hq, hne, hdf⟩ := normalizeFacts_ok_form h
  refine ⟨quarters, ?_, ?_, ?_, ?_⟩
  · rw [hdf]; rfl
  · rw [hq, List.length_take]
    exact min_le_left _ _
  · intro c hc
    rw [hdf] at hc
    rcases List.mem_cons.mp hc with rfl | hc
    · rfl
    · obtain ⟨k, _, rfl⟩ := List.mem_map.mp hc
      simp [colFor, Column.length]
  · rw [hq]
    exact (sortDescend_strict (quarterSetOf_nodup ws)).sublist (List.take_sublist 4 _)

/-- C3 witness at the concrete sample document (two periods survive, the Q3
duplicate collapses, the incomplete observations drop). -/
theorem normalized_table_shape_witness :
    ∃ qs, dfSample.head? = some ⟨"quarter", ColData.strings qs⟩ ∧ qs.length ≤ 4 ∧
      (∀ c ∈ dfSample, c.length = qs.length) ∧ qs.Pairwise (fun a b => b < a) :=
  normalized_table_shape "T" factsSample dfSample (by with_unfolding_all decide)

/-- Lookup after an inner-map insertion: the inserted period wins, others
are unchanged. -/
theorem alookup_innerInsert (m : List (String × ℚ)) (q : String) (v : ℚ) (q' : String) :
    alookup (innerInsert m q v) q' = if q' = q then some v else alookup m q' := by
  induction m with
  | nil =>
    simp only [innerInsert, alookup]
    by_cases h : q = q'
    · rw [if_pos h, if_pos h.symm]
    · rw [if_neg h, if_neg (fun hh => h hh.symm)]
  | cons e rest ih =>
    simp only [innerInsert]
    by_cases he : e.1 = q
    · rw [if_pos he]
      simp only [alookup]
      by_cases hq : q = q'
      · rw [if_pos hq, if_pos hq.symm]
      · rw [if_neg hq, if_neg (fun hh : q' = q => hq hh.symm),
          if_neg (fun hh : e.1 = q' => hq (he.symm.trans hh))]
    · rw [if_neg he]
      simp only [alookup]
      by_cases hq : e.1 = q'
      · rw [if_pos hq, if_neg (fun hh : q' = q => he (hq.trans hh)), if_pos hq]
      · rw [if_neg hq, ih]
        by_cases hqq : q' = q
        · rw [if_pos hqq, if_pos hqq]
        · rw [if_neg hqq, if_neg hqq, if_neg hq]

/-- Lookup after an outer-map upsert: the upserted key maps to its previous
inner map (or a fresh one) with the period inserted; other keys are
unchanged. -/
theorem alookup_upsertOuter (m : List (String × List (String × ℚ))) (k q : String) (v : ℚ)
    (k' : String) :
    alookup (upsertOuter m k q v) k' =
      if k' = k then some (innerInsert ((alookup m k).getD []) q v) else alookup m k' := by
  induction m with
  | nil =>
    simp only [upsertOuter, alookup]
    by_cases h : k = k'
    · rw [if_pos h, if_pos h.symm]
      rfl
    · rw [if_neg h, if_neg (fun hh => h hh.symm)]
  | cons e rest ih =>
    simp only [upsertOuter]
    by_cases he : e.1 = k
    · rw [if_pos he]
      simp only [alookup]
      by_cases hk : e.1 = k'
      · rw [if_pos hk, if_pos (hk.symm.trans he), if_pos he]
        rfl
      · rw [if_neg hk, if_neg (fun hh : k' = k => hk (he.symm ▸ hh.symm)), if_neg hk]
    · rw [if_neg he]
      simp only [alookup]
      by_cases hk : e.1 = k'
      · rw [if_pos hk, if_neg (fun hh : k' = k => he (hk.trans hh)), if_pos hk]
      · rw [if_neg hk, ih, if_neg he]
        by_cases hkk : k' = k
        · rw [if_pos hkk, if_pos hkk]
        · rw [if_neg hkk, if_neg hkk, if_neg hk]

/-- Cell lookup after one write: the written key and period read back the
written value, every other cell is unchanged. -/
theorem cellLookup_upsert (M : List (String × List (String × ℚ))) (k q : String) (v : ℚ)
    (k' q' : String) :
    cellLookup (upsertOuter M k q v) k' q' =
      if k' = k ∧ q' = q then some v else cellLookup M k' q' := by
  unfold cellLookup
  rw [alookup_upsertOuter]
  by_cases hk : k' = k
  · rw [if_pos hk]
    simp only [Option.some_bind]
    rw [alookup_innerInsert]
    by_cases hq : q' = q
    · rw [if_pos hq, if_pos ⟨hk, hq⟩]
    · rw [if_neg hq, if_neg (fun hh => hq hh.2), hk]
      cases halt : alookup M k with
      | none => rfl
      | some qm => rfl
  · rw [if_neg hk, if_neg (fun hh => hk hh.1)]

/-- Cell lookup in the accumulated metric map is the value of the last write
with that key and period. -/
theorem cellLookup_metricMapOf (ws : List FactWrite) (k q : String) :
    cellLookup (metricMapOf ws) k q =
      ((ws.filter (fun w => w.key = k ∧ w.q = q)).map FactWrite.v).getLast? := by
  induction ws using List.reverseRecOn with
  | nil => rfl
  | append_singleton ws w ih =>
    have hm : metricMapOf (ws ++ [w]) = upsertOuter (metricMapOf ws) w.key w.q w.v := by
      simp [metricMapOf, List.foldl_append]
    rw [hm, cellLookup_upsert, List.filter_append, List.map_append]
    by_cases h : w.key = k ∧ w.q = q
    · have hfw : List.filter (fun w => decide (w.key = k ∧ w.q = q)) [w] = [w] := by
        simp [List.filter, h]
      rw [if_pos ⟨h.1.symm, h.2.symm⟩, hfw]
      simp [List.getLast?_concat]
    · have hfw : List.filter (fun w => decide (w.key = k ∧ w.q = q)) [w] = [] := by
        simp [List.filter, h]
      rw [if_neg (fun hh => h ⟨hh.1.symm, hh.2.symm⟩), hfw]
      simp [ih]

/-- Every write produced from one (metric, currency) observation list carries
the joined metric key. -/
theorem obsWrite_key {m u : String} {item : FactUnit} {w : FactWrite}
    (h : obsWrite m u item = some w) : w.key = m ++ "_" ++ u := by
  unfold obsWrite at h
  split at h
  · rw [← Option.some.inj h]
  · exact absurd h (by simp)

/-- Membership version of the key fact. -/
theorem filterMap_obsWrite_key {m u : String} {l : List FactUnit} {w : FactWrite}
    (h : w ∈ l.filterMap (obsWrite m u)) : w.key = m ++ "_" ++ u := by
  obtain ⟨item, _, hw⟩ := List.mem_filterMap.mp h
  exact obsWrite_key hw

/-- A flat map over blocks that are all empty is empty. -/
theorem flatMap_eq_nil {α β : Type} {l : List α} {g : α → List β}
    (h : ∀ a ∈ l, g a = []) : l.flatMap g = [] := by
  induction l with
  | nil => rfl
  | cons a rest ih =>
    rw [List.flatMap_cons, h a (List.mem_cons_self a rest), List.nil_append]
    exact ih (fun b hb => h b (List.mem_cons_of_mem a hb))

/-- Filtering distributes over a flat map. -/
theorem filter_flatMap_eq {α β : Type} (l : List α) (g : α → List β) (p : β → Bool) :
    (l.flatMap g).filter p = l.flatMap (fun a => (g a).filter p) := by
  induction l with
  | nil => rfl
  | cons a rest ih => simp [List.flatMap_cons, List.filter_append, ih]

/-- Writes from an observation list of a pair whose joined key differs from
the key of interest are all filtered away. -/
theorem filterMap_filter_nil {m' u' k q : String} {l' : List FactUnit}
    (hne : m' ++ "_" ++ u' ≠ k) :
    (l'.filterMap (obsWrite m' u')).filter (fun w => w.key = k ∧ w.q = q) = [] := by
  rw [List.filter_eq_nil_iff]
  intro w hw
  simp only [decide_eq_true_eq]
  intro hc
  exact hne ((filterMap_obsWrite_key hw) ▸ hc.1)

/-- A flat map filtered down to the block of the unique element carrying a
given key: all other blocks vanish. -/
theorem flatMap_filter_unique {α β : Type} (keyf : α → String) (g : α → List β) (p : β → Bool)
    (G : List α) (a : α) (hmem : a ∈ G) (hnd : (G.map keyf).Nodup)
    (hnil : ∀ b ∈ G, keyf b ≠ keyf a → (g b).filter p = []) :
    (G.flatMap g).filter p = (g a).filter p := by
  induction G with
  | nil => simp at hmem
  | cons x rest ih =>
    rw [List.flatMap_cons, List.filter_append]
    rw [List.map_cons] at hnd
    have hnd' := List.nodup_cons.mp hnd
    rcases List.mem_cons.mp hmem with rfl | hmem'
    · have hrest : (rest.flatMap g).filter p = [] := by
        rw [filter_flatMap_eq]
        apply flatMap_eq_nil
        intro b hb
        apply hnil b (List.mem_cons_of_mem _ hb)
        intro hkb
        exact hnd'.1 (hkb ▸ List.mem_map_of_mem keyf hb)
      rw [hrest, List.append_nil]
    · have hx : keyf x ≠ keyf a := by
        intro hkx
        exact hnd'.1 (hkx ▸ List.mem_map_of_mem keyf hmem')
      rw [hnil x (List.mem_cons_self x rest) hx, List.nil_append]
      exact ih hmem' hnd'.2 (fun b hb => hnil b (List.mem_cons_of_mem x hb))

/-- Filtering the writes of one observation list for its own key and a fixed
period, then projecting the values, yields exactly the qualifying raw values
scaled to billions, in order. -/
theorem filterMap_filter_self_map (m u q : String) (l : List FactUnit) :
    ((l.filterMap (obsWrite m u)).filter
        (fun w => w.key = m ++ "_" ++ u ∧ w.q = q)).map FactWrite.v =
      (l.filterMap (fun item =>
        match item.fiscal_period, item.value with
        | some p, some v => if p = q then some v else none
        | _, _ => none)).map (fun v => v / 1000000000) := by
  induction l with
  | nil => rfl
  | cons item rest ih =>
    rcases item with ⟨fp, vv⟩
    cases fp with
    | none =>
      have h1 : obsWrite m u ⟨none, vv⟩ = none := by cases vv <;> rfl
      have h2 : (match (⟨none, vv⟩ : FactUnit).fiscal_period, (⟨none, vv⟩ : FactUnit).value with
          | some p, some v => if p = q then some v else none
          | _, _ => none) = none := by cases vv <;> rfl
      simp only [List.filterMap_cons, h1, h2]
      exact ih
    | some p =>
      cases vv with
      | none => simp only [List.filterMap_cons, obsWrite]; exact ih
      | some val =>
        have h1 : obsWrite m u ⟨some p, some val⟩ =
            some ⟨m ++ "_" ++ u, p, val / 1000000000⟩ := rfl
        have h2 : (match (⟨some p, some val⟩ : FactUnit).fiscal_period,
              (⟨some p, some val⟩ : FactUnit).value with
            | some p, some v => if p = q then some v else none
            | _, _ => none) = if p = q then some val else none := rfl
        simp only [List.filterMap_cons, h1, h2]
        by_cases hpq : p = q
        · subst hpq
          simp only [List.filter_cons]
          simp
          simpa using ih
        · simp only [List.filter_cons]
          simp [hpq]
          simpa using ih

/-- The last element of a mapped list is the mapped last element. -/
theorem listMap_getLast {α β : Type} (f : α → β) (l : List α) :
    (l.map f).getLast? = l.getLast?.map f := by
  induction l using List.reverseRecOn with
  | nil => rfl
  | append_singleton l a _ => simp

/-- A joined metric key contains an underscore and so is never the quarter
column name. -/
theorem key_ne_quarter (m u : String) : m ++ "_" ++ u ≠ "quarter" := by
  intro h
  have h2 : '_' ∈ (m ++ "_" ++ u).data := by
    simp [String.data_append]
  rw [h] at h2
  revert h2
  decide

/-- Looking up a key among the columns built from it finds its column. -/
theorem lookupCol_map_colFor_some (mmap : List (String × List (String × ℚ)))
    (quarters : List String) :
    ∀ (keys : List String) (k : String), k ∈ keys →
      lookupCol (keys.map (colFor mmap quarters)) k = some (colFor mmap quarters k) := by
  intro keys
  induction keys with
  | nil => intro k hk; simp at hk
  | cons x rest ih =>
    intro k hk
    simp only [List.map_cons, lookupCol]
    have hname : (colFor mmap quarters x).name = x := rfl
    rw [hname]
    by_cases hx : x = k
    · subst hx
      rw [if_pos rfl]
    · rw [if_neg hx]
      exact ih k ((List.mem_cons.mp hk).resolve_left (fun hh => hx hh.symm))

/-- Looking up a key absent from the built columns fails. -/
theorem lookupCol_map_colFor_none (mmap : List (String × List (String × ℚ)))
    (quarters : List String) :
    ∀ (keys : List String) (k : String), k ∉ keys →
      lookupCol (keys.map (colFor mmap quarters)) k = none := by
  intro keys
  induction keys with
  | nil => intro k _; rfl
  | cons x rest ih =>
    intro k hk
    simp only [List.mem_cons, not_or] at hk
    simp only [List.map_cons, lookupCol]
    have : (colFor mmap quarters x).name = x := rfl
    rw [this, if_neg (fun hh => hk.1 hh.symm)]
    exact ih k hk.2

/-- Filtering all writes of the document for a collision-free metric key
keeps exactly the writes of that key's own observation list. -/
theorem writes_filter_eq (G : List (String × GaapFact)) (m u q : String) (fobj : GaapFact)
    (l : List FactUnit)
    (hmemG : (m, fobj) ∈ G) (hndG : (G.map Prod.fst).Nodup)
    (hmemU : (u, l) ∈ fobj.units) (hndU : (fobj.units.map Prod.fst).Nodup)
    (hkey : ∀ p ∈ G, ∀ ulp ∈ p.2.units,
      p.1 ++ "_" ++ ulp.1 = m ++ "_" ++ u → p.1 = m ∧ ulp.1 = u) :
    (extractWrites G).filter (fun w => w.key = m ++ "_" ++ u ∧ w.q = q) =
      (l.filterMap (obsWrite m u)).filter (fun w => w.key = m ++ "_" ++ u ∧ w.q = q) := by
  unfold extractWrites
  have h1 := flatMap_filter_unique Prod.fst
    (fun mf => mf.2.units.flatMap (fun ul => ul.2.filterMap (obsWrite mf.1 ul.1)))
    (fun w => decide (w.key = m ++ "_" ++ u ∧ w.q = q)) G (m, fobj) hmemG hndG
    (by
      intro b hb hbne
      rw [filter_flatMap_eq]
      apply flatMap_eq_nil
      intro ul hul
      apply filterMap_filter_nil
      intro hk
      exact hbne (hkey b hb ul hul hk).1)
  rw [h1]
  exact flatMap_filter_unique Prod.fst
    (fun ul => ul.2.filterMap (obsWrite m ul.1))
    (fun w => decide (w.key = m ++ "_" ++ u ∧ w.q = q)) fobj.units (u, l) hmemU hndU
    (by
      intro ul hul hune
      apply filterMap_filter_nil
      intro hk
      exact hune (hkey (m, fobj) hmemG ul hul hk).2)

/-- The stored cell for a collision-free metric key at a period is the last
qualifying observation of its own list, scaled to billions. -/
theorem cell_eq_lastObs (G : List (String × GaapFact)) (m u q : String) (fobj : GaapFact)
    (l : List FactUnit)
    (hmemG : (m, fobj) ∈ G) (hndG : (G.map Prod.fst).Nodup)
    (hmemU : (u, l) ∈ fobj.units) (hndU : (fobj.units.map Prod.fst).Nodup)
    (hkey : ∀ p ∈ G, ∀ ulp ∈ p.2.units,
      p.1 ++ "_" ++ ulp.1 = m ++ "_" ++ u → p.1 = m ∧ ulp.1 = u) :
    cellLookup (metricMapOf (extractWrites G)) (m ++ "_" ++ u) q =
      (lastObsVal l q).map (fun v => v / 1000000000) := by
  rw [cellLookup_metricMapOf,
    writes_filter_eq G m u q fobj l hmemG hndG hmemU hndU hkey,
    filterMap_filter_self_map, lastObsVal, listMap_getLast]

/-- C4: in the normalized table, the cell for the metric key joined from a
metric and unit, at the selected period in position i, equals the raw value
of the last observation in document order for that metric, unit and period
divided by 1e9, and equals 0.0 when no observation with both fields present
exists for that combination; observations missing either field contribute
nothing.  The uniqueness hypotheses say the document keys its metrics and
units uniquely (as the source HashMaps do) and that no other (metric, unit)
pair joins to the same column key, so the column is well defined
independently of map iteration order. -/
theorem normalized_cell_last_write
    (ticker : String) (facts : CompanyFacts) (df : DataFrame)
    (G : List (String × GaapFact)) (fobj : GaapFact)
    (m u : String) (l : List FactUnit) (qs : List String) (vs : List ℚ)
    (i : ℕ) (q : String)
    (hg : alookup facts.facts "us-gaap" = some G)
    (hndG : (G.map Prod.fst).Nodup)
    (hmemG : (m, fobj) ∈ G)
    (hndU : (fobj.units.map Prod.fst).Nodup)
    (hmemU : (u, l) ∈ fobj.units)
    (hkey : ∀ p ∈ G, ∀ ulp ∈ p.2.units,
      p.1 ++ "_" ++ ulp.1 = m ++ "_" ++ u → p.1 = m ∧ ulp.1 = u)
    (hdf : normalizeFacts ticker facts = .ok df)
    (hq : df.head? = some ⟨"quarter", ColData.strings qs⟩)
    (hqi : qs[i]? = some q)
    (hcol : lookupCol df (m ++ "_" ++ u) = some ⟨m ++ "_" ++ u, ColData.floats vs⟩) :
    vs[i]? = some (((lastObsVal l q).map (fun v => v / 1000000000)).getD 0) := by
  obtain ⟨ws, quarters, hws, _, _, hdfeq⟩ := normalizeFacts_ok_form hdf
  rw [hg] at hws
  subst hws
  subst hdfeq
  have hqs : quarters = qs := by
    simp only [List.head?_cons, Option.some.injEq, Column.mk.injEq, ColData.strings.injEq] at hq
    exact hq.2
  subst hqs
  rw [show lookupCol (⟨"quarter", ColData.strings quarters⟩ ::
      ((metricMapOf (extractWrites G)).map Prod.fst).map
        (colFor (metricMapOf (extractWrites G)) quarters)) (m ++ "_" ++ u) =
      lookupCol (((metricMapOf (extractWrites G)).map Prod.fst).map
        (colFor (metricMapOf (extractWrites G)) quarters)) (m ++ "_" ++ u) from by
    rw [show lookupCol (⟨"quarter", ColData.strings quarters⟩ ::
        ((metricMapOf (extractWrites G)).map Prod.fst).map
          (colFor (metricMapOf (extractWrites G)) quarters)) (m ++ "_" ++ u) =
        if ("quarter" : String) = m ++ "_" ++ u then
          some ⟨"quarter", ColData.strings quarters⟩
        else lookupCol (((metricMapOf (extractWrites G)).map Prod.fst).map
          (colFor (metricMapOf (extractWrites G)) quarters)) (m ++ "_" ++ u) from rfl,
      if_neg (fun hh => key_ne_quarter m u hh.symm)]] at hcol
  by_cases hmemk : (m ++ "_" ++ u) ∈ (metricMapOf (extractWrites G)).map Prod.fst
  · rw [lookupCol_map_colFor_some _ _ _ _ hmemk] at hcol
    have hvs : vs = quarters.map
        (fun qq => (cellLookup (metricMapOf (extractWrites G)) (m ++ "_" ++ u) qq).getD 0) := by
      have := Option.some.inj hcol
      simp only [colFor, Column.mk.injEq, ColData.floats.injEq] at this
      exact this.2.symm
    subst hvs
    rw [List.getElem?_map, hqi]
    simp only [Option.map_some']
    rw [cell_eq_lastObs G m u q fobj l hmemG hndG hmemU hndU hkey]
  · rw [lookupCol_map_colFor_none _ _ _ _ hmemk] at hcol
    exact absurd hcol (by simp)

/-- C4 witness at the concrete sample document: the Q3 cell of the
Revenues_USD column is the later of the two Q3 observations (7e9, not 5e9)
scaled to billions. -/
theorem normalized_cell_last_write_witness :
    ([(7000000000 : ℚ) / 1000000000, (3000000000 : ℚ) / 1000000000][0]?) =
      some (((lastObsVal
        [⟨some "Q3", some 5000000000⟩, ⟨none, some 1000000000⟩,
         ⟨some "Q3", some 7000000000⟩, ⟨some "Q1", none⟩,
         ⟨some "Q2", some 3000000000⟩] "Q3").map (fun v => v / 1000000000)).getD 0) :=
  normalized_cell_last_write "T" factsSample
    [⟨"quarter", ColData.strings ["Q3", "Q2"]⟩,
     ⟨"Revenues_USD", ColData.floats [7000000000 / 1000000000, 3000000000 / 1000000000]⟩]
    [("Revenues", ⟨[("USD",
        [⟨some "Q3", some 5000000000⟩, ⟨none, some 1000000000⟩,
         ⟨some "Q3", some 7000000000⟩, ⟨some "Q1", none⟩,
         ⟨some "Q2", some 3000000000⟩])]⟩)]
    ⟨[("USD",
        [⟨some "Q3", some 5000000000⟩, ⟨none, some 1000000000⟩,
         ⟨some "Q3", some 7000000000⟩, ⟨some "Q1", none⟩,
         ⟨some "Q2", some 3000000000⟩])]⟩
    "Revenues" "USD"
    [⟨some "Q3", some 5000000000⟩, ⟨none, some 1000000000⟩,
     ⟨some "Q3", some 7000000000⟩, ⟨some "Q1", none⟩,
     ⟨some "Q2", some 3000000000⟩]
    ["Q3", "Q2"]
    [7000000000 / 1000000000, 3000000000 / 1000000000]
    0 "Q3"
    rfl (by decide) (by simp) (by decide) (by simp)
    (by decide) (by with_unfolding_all rfl) rfl rfl (by with_unfolding_all rfl)
